import Mathlib

/-!
Verification of the data-access layer of the Sea Level Dashboard repository
(`backend/shared/database_OPTIMIZED.py`), as a shallow embedding in Lean 4.

Modelling conventions:
* Python dicts of query parameters are association lists `List (String × JValue)`
  with pairwise-distinct keys; their list order models dict insertion order.
* `pandas.DataFrame` results are `DataFrame` records: ordered column names and
  ordered rows of values.
* The Redis client is a value of `Option Redis`: `none` models
  `self.redis_client = None`; a `Redis` value carries the key/value store and a
  `failing` flag under which every Redis operation raises (connection error).
  Stored payloads may also be `corrupt`, under which deserialization
  (`pd.read_json`) raises.
* `hashlib.md5(...).hexdigest()` is an external library call; it is abstracted
  as an explicit `digest : String → String` parameter.  The string that is
  digested (`cache_data`) is modelled faithfully, including the
  `json.dumps(params, sort_keys=True)` serialization (Python `json.dumps` with
  its default `ensure_ascii=True` escaping and `", "` / `": "` separators, and
  keys sorted in code-point lexicographic order).
* Exceptions are modelled with `Except`: a Python function that may raise maps
  to a Lean function returning `Except Unit _` (the error payload is not
  inspected by the code under study).
-/

/-- A JSON-serializable query-parameter value (the parameter values this
application passes are strings and integers). -/
inductive JValue where
  | str (s : String)
  | int (i : Int)
deriving DecidableEq, Repr

/-- A `pandas.DataFrame` query result: ordered column names and ordered rows.
`pd.DataFrame()` (no columns, no rows) is `⟨[], []⟩`. -/
structure DataFrame where
  columns : List String
  rows : List (List JValue)
deriving DecidableEq, Repr

/-- The `query_metrics` dictionary of `OptimizedDatabaseManager`. -/
structure Metrics where
  total_queries : Nat
  cache_hits : Nat
  slow_queries : Nat
  failed_queries : Nat
deriving DecidableEq, Repr

/-! ### `json.dumps(params, sort_keys=True)` and `_get_cache_key` -/

/-- Decimal digit character (used by the JSON serialization of integers). -/
def digitChar (d : Nat) : Char :=
  match d with
  | 0 => '0' | 1 => '1' | 2 => '2' | 3 => '3' | 4 => '4'
  | 5 => '5' | 6 => '6' | 7 => '7' | 8 => '8' | _ => '9'

/-- Lowercase hexadecimal digit character, as emitted by Python
`json.dumps`'s `\uXXXX` escapes. -/
def hexDigit (d : Nat) : Char :=
  match d with
  | 0 => '0' | 1 => '1' | 2 => '2' | 3 => '3' | 4 => '4'
  | 5 => '5' | 6 => '6' | 7 => '7' | 8 => '8' | 9 => '9'
  | 10 => 'a' | 11 => 'b' | 12 => 'c' | 13 => 'd' | 14 => 'e' | _ => 'f'

/-- Four lowercase hex digits of a code unit `v < 0x10000`. -/
def hex4 (v : Nat) : List Char :=
  [hexDigit (v / 4096 % 16), hexDigit (v / 256 % 16), hexDigit (v / 16 % 16), hexDigit (v % 16)]

/-- Python `json.dumps` escaping of one character (default `ensure_ascii=True`):
`"` and `\` and the control shorthands get two-character escapes, other
control characters and all non-ASCII characters become `\uXXXX` (a surrogate
pair for code points above `0xFFFF`), printable ASCII is emitted verbatim. -/
def escape (c : Char) : List Char :=
  if c = '"' then ['\\', '"']
  else if c = '\\' then ['\\', '\\']
  else if c = '\n' then ['\\', 'n']
  else if c = '\r' then ['\\', 'r']
  else if c = '\t' then ['\\', 't']
  else if c.toNat = 8 then ['\\', 'b']
  else if c.toNat = 12 then ['\\', 'f']
  else if c.toNat < 32 then '\\' :: 'u' :: hex4 c.toNat
  else if c.toNat < 127 then [c]
  else if c.toNat < 65536 then '\\' :: 'u' :: hex4 c.toNat
  else '\\' :: 'u' :: hex4 (55296 + (c.toNat - 65536) / 1024) ++
       '\\' :: 'u' :: hex4 (56320 + (c.toNat - 65536) % 1024)

/-- JSON escaping of a character sequence. -/
def encodeChars : List Char → List Char
  | [] => []
  | c :: cs => escape c ++ encodeChars cs

/-- Decimal digits of a natural number, most significant first
(Python `repr` of a nonnegative int). -/
def natChars (n : Nat) : List Char :=
  if n < 10 then [digitChar n]
  else natChars (n / 10) ++ [digitChar (n % 10)]
termination_by n
decreasing_by
  exact Nat.div_lt_self (by omega) (by omega)

/-- JSON rendering of an integer (Python `repr` of an int). -/
def intChars (i : Int) : List Char :=
  if i < 0 then '-' :: natChars i.natAbs else natChars i.toNat

/-- JSON rendering of a parameter value. -/
def renderValue : JValue → List Char
  | .str s => '"' :: (encodeChars s.data ++ ['"'])
  | .int i => intChars i

/-- JSON rendering of one `"key": value` item. -/
def renderItem (kv : String × JValue) : List Char :=
  '"' :: (encodeChars kv.1.data ++ '"' :: ':' :: ' ' :: renderValue kv.2)

/-- JSON rendering of the item list, separated by `", "`
(Python `json.dumps` default separators). -/
def renderItemsAux : List (String × JValue) → List Char
  | [] => []
  | [kv] => renderItem kv
  | kv :: rest => renderItem kv ++ ',' :: ' ' :: renderItemsAux rest

/-- Code-point lexicographic comparison of character lists: the order Python
uses to compare `str` values (and hence the order of `sort_keys=True`). -/
def charsLe : List Char → List Char → Bool
  | [], _ => true
  | _ :: _, [] => false
  | c1 :: t1, c2 :: t2 =>
    if c1.toNat < c2.toNat then true
    else if c2.toNat < c1.toNat then false
    else charsLe t1 t2

/-- Python `str` comparison, code-point lexicographic. -/
def strLe (a b : String) : Bool := charsLe a.data b.data

/-- Insert one item into a key-sorted item list (stable insertion sort step). -/
def insertSorted (x : String × JValue) : List (String × JValue) → List (String × JValue)
  | [] => [x]
  | y :: ys => if strLe x.1 y.1 then x :: y :: ys else y :: insertSorted x ys

/-- Sort items by key, modelling `sort_keys=True` (since parameter keys are
pairwise distinct, any comparison sort yields the same key-sorted list). -/
def sortByKey (l : List (String × JValue)) : List (String × JValue) :=
  l.foldr insertSorted []

/-- `json.dumps(params, sort_keys=True)` for a flat string-keyed object. -/
def json_dumps (params : List (String × JValue)) : String :=
  ⟨'{' :: (renderItemsAux (sortByKey params) ++ ['}'])⟩

/-- The string that `_get_cache_key` feeds to the digest:
`f"{query}_{json.dumps(params, sort_keys=True)}"`. -/
def cache_data (query : String) (params : List (String × JValue)) : String :=
  query ++ "_" ++ json_dumps params

/-- `OptimizedDatabaseManager._get_cache_key`, with `hashlib.md5(...).hexdigest()`
abstracted as the `digest` parameter:
`return f"query_cache:{hashlib.md5(cache_data.encode()).hexdigest()}"`. -/
def _get_cache_key (digest : String → String) (query : String)
    (params : List (String × JValue)) : String :=
  "query_cache:" ++ digest (cache_data query params)

/-! ### Cache layer: `_get_from_cache`, `_set_cache`, `clear_cache` -/

/-- A payload stored under a cache key.  `ok df` is a well-formed serialized
result set that `pd.read_json` deserializes back to `df`; `corrupt` is a
payload on which deserialization raises. -/
inductive CachePayload where
  | ok (df : DataFrame)
  | corrupt
deriving DecidableEq, Repr

/-- The Redis client's observable state: its key/value store, and a `failing`
flag under which every Redis operation raises (connection error / timeout). -/
structure Redis where
  store : List (String × CachePayload)
  failing : Bool
deriving DecidableEq, Repr

/-- Store contents of an optional client (for stating frame conditions). -/
def clientStore : Option Redis → List (String × CachePayload)
  | none => []
  | some r => r.store

/-- `OptimizedDatabaseManager._get_from_cache`.  Returns the deserialized
cached result (or `none`) together with the updated metrics.  Mirrors the
source: no client means `return None`; a raising client is caught and falls
through to `return None`; on a present payload `cache_hits` is incremented
before deserialization, so a corrupt payload still counts a hit but the
deserialization error is caught and `None` is returned. -/
def _get_from_cache (client : Option Redis) (m : Metrics) (key : String) :
    Option DataFrame × Metrics :=
  match client with
  | none => (none, m)
  | some r =>
    if r.failing then (none, m)
    else
      match List.lookup key r.store with
      | none => (none, m)
      | some p =>
        let m' := { m with cache_hits := m.cache_hits + 1 }
        match p with
        | .ok df => (some df, m')
        | .corrupt => (none, m')

/-- `OptimizedDatabaseManager._set_cache`.  Returns the updated client.
Mirrors the source: no client or an empty DataFrame is a no-op
(`if not self.redis_client or data.empty: return`); a raising client's
`setex` is caught and leaves the store unchanged; otherwise the serialized
payload is stored under the key (SET overwrites, modelled by consing, with
`List.lookup` taking the first binding).  The `ttl` only affects expiry
timing, which is outside this state model. -/
def _set_cache (client : Option Redis) (key : String) (data : DataFrame)
    (_ttl : Nat) : Option Redis :=
  match client with
  | none => none
  | some r =>
    if data.rows.isEmpty then some r
    else if r.failing then some r
    else some { r with store := (key, .ok data) :: r.store }

/-- `OptimizedDatabaseManager.clear_cache`.  Deletes the query-cache keys
matching `query_cache:{pattern}*` (or all `query_cache:*` keys when no
pattern is given); no client is a no-op, and a raising client's `keys`/
`delete` is caught and leaves the store unchanged. -/
def clear_cache (client : Option Redis) (pattern : Option String) : Option Redis :=
  match client with
  | none => none
  | some r =>
    if r.failing then some r
    else
      match pattern with
      | some p =>
        let keep := fun (e : String × CachePayload) =>
          !(String.isPrefixOf ("query_cache:" ++ p) e.1)
        some { r with store := r.store.filter keep }
      | none =>
        let keep := fun (e : String × CachePayload) =>
          !(String.isPrefixOf "query_cache:" e.1)
        some { r with store := r.store.filter keep }

/-! ### Query executor: `execute_query_optimized` -/

/-- The chunked fetch loop of `execute_query_optimized`:
`while True: chunk = result.fetchmany(chunk_size); if not chunk: break; ...`.
`fetchmany` on a cursor holding `rows` yields `rows.take n` and leaves
`rows.drop n`; the returned list is the list of fetched chunks in order. -/
def fetchChunks (n : Nat) (rows : List (List JValue)) : List (List (List JValue)) :=
  if (rows.take n).isEmpty then []
  else rows.take n :: fetchChunks n (rows.drop n)
termination_by rows.length
decreasing_by
  rename_i h
  simp only [List.isEmpty_iff, List.take_eq_nil_iff] at h
  push_neg at h
  simp only [List.length_drop]
  have : 0 < rows.length := List.length_pos.mpr h.2
  omega

/-- The result `execute_query_optimized` assembles from the fetched chunks:
each chunk becomes `pd.DataFrame(chunk, columns=result.keys())`, a non-empty
chunk list is combined with `pd.concat(chunks, ignore_index=True)`, and an
empty chunk list yields `pd.DataFrame()`. -/
def chunkedFetchResult (keys : List String) (rows : List (List JValue))
    (chunk_size : Nat) : DataFrame :=
  let chunks := fetchChunks chunk_size rows
  if chunks.isEmpty then ⟨[], []⟩ else ⟨keys, chunks.flatten⟩

/-- The hypothetical single-shot fetch the spec compares against:
`pd.DataFrame(result.fetchall(), columns=result.keys())`. -/
def singleShotResult (keys : List String) (rows : List (List JValue)) : DataFrame :=
  ⟨keys, rows⟩

/-- The behavior of the engine for one cache-missing call:
`success` — the connection is acquired, the statement executes (firing the
`after_execute` listener) and all rows are fetched;
`fetchFail` — the statement executes but an error is raised mid-fetch after
some rows were already read;
`execFail` — the statement itself (or `engine.connect()`) raises, so the
`after_execute` listener never fires. -/
inductive EngineOutcome where
  | success (keys : List String) (rows : List (List JValue))
  | fetchFail (keys : List String) (rowsRead : List (List JValue))
  | execFail
deriving DecidableEq, Repr

/-- The manager state observable by the claims: the optional Redis client,
the metrics counters, and a pool-acquire counter counting connections taken
from the engine's pool. -/
structure ExecState where
  client : Option Redis
  metrics : Metrics
  pool_acquires : Nat
deriving DecidableEq, Repr

/-- `OptimizedDatabaseManager.execute_query_optimized`.  Mirrors the source:
compute the cache key, consult the cache and return immediately on a hit;
on a miss acquire a connection (`with self.engine.connect()`), execute the
statement (the `after_execute` listener increments `total_queries`), fetch
in chunks of `chunk_size`, combine non-empty chunk lists with `pd.concat`
and cache the combined frame, return `pd.DataFrame()` for an empty chunk
list without caching; any error in that block increments `failed_queries`
and is re-raised. -/
def execute_query_optimized (digest : String → String) (st : ExecState)
    (query : String) (params : List (String × JValue)) (cache_ttl : Nat)
    (chunk_size : Nat) (engine : EngineOutcome) :
    Except Unit DataFrame × ExecState :=
  let cache_key := _get_cache_key digest query params
  let gm := _get_from_cache st.client st.metrics cache_key
  match gm.1 with
  | some df => (.ok df, { st with metrics := gm.2 })
  | none =>
    match engine with
    | .execFail =>
      (.error (),
        { st with
          metrics := { gm.2 with failed_queries := gm.2.failed_queries + 1 },
          pool_acquires := st.pool_acquires + 1 })
    | .fetchFail _ _ =>
      (.error (),
        { st with
          metrics :=
            { gm.2 with
              total_queries := gm.2.total_queries + 1,
              failed_queries := gm.2.failed_queries + 1 },
          pool_acquires := st.pool_acquires + 1 })
    | .success keys rows =>
      let m2 := { gm.2 with total_queries := gm.2.total_queries + 1 }
      let chunks := fetchChunks chunk_size rows
      if chunks.isEmpty then
        (.ok ⟨[], []⟩,
          { st with metrics := m2, pool_acquires := st.pool_acquires + 1 })
      else
        let df : DataFrame := ⟨keys, chunks.flatten⟩
        (.ok df,
          { client := _set_cache st.client cache_key df cache_ttl,
            metrics := m2,
            pool_acquires := st.pool_acquires + 1 })

/-! ### Bulk writer: `get_session` and `bulk_insert_optimized` -/

/-- An open SQLAlchemy session over one target table: the rows already
committed to the database, and the rows inserted but not yet committed in
the current transaction. -/
structure Session (α : Type) where
  committed : List α
  pending : List α
deriving DecidableEq, Repr

/-- `session.commit()`: persist all pending rows. -/
def commitS {α : Type} (s : Session α) : Session α :=
  ⟨s.committed ++ s.pending, []⟩

/-- `OptimizedDatabaseManager.get_session`: run a body in a fresh session;
on success commit (the context manager commits after `yield`); on an
exception roll pending work back, increment `failed_queries`, and re-raise.
The body returns the session state both on success and alongside the raised
error, so the database state at the moment of failure is observable. -/
def get_session {α : Type} (m : Metrics) (db : List α)
    (body : Session α → Except (Session α) (Session α)) :
    Except Unit Unit × List α × Metrics :=
  match body ⟨db, []⟩ with
  | .ok s => (.ok (), (commitS s).committed, m)
  | .error s =>
    (.error (), s.committed,
      { m with failed_queries := m.failed_queries + 1 })

/-- The batching loop of `bulk_insert_optimized`
(`for i in range(0, total_rows, batch_size)`), with `remaining` the rows not
yet submitted, `k` the 1-based index of the next batch, and `inserted` the
running row count.  `failAt = some k` injects a `bulk_insert_mappings`
failure at batch `k` (raising before that batch's rows are registered).
After a successful batch, `session.commit()` runs when
`inserted % (batch_size * 10) == 0`. -/
def insertBatches {α : Type} (failAt : Option Nat) (B : Nat) (hB : 0 < B)
    (k : Nat) (inserted : Nat) (remaining : List α) (s : Session α) :
    Except (Session α) (Session α) :=
  if remaining.isEmpty then .ok s
  else if failAt = some k then .error s
  else
    let batch := remaining.take B
    let s1 : Session α := ⟨s.committed, s.pending ++ batch⟩
    let inserted1 := inserted + batch.length
    let s2 := if inserted1 % (B * 10) = 0 then commitS s1 else s1
    insertBatches failAt B hB (k + 1) inserted1 (remaining.drop B) s2
termination_by remaining.length
decreasing_by
  rename_i h _
  simp only [List.isEmpty_iff] at h
  simp only [List.length_drop]
  have : 0 < remaining.length := List.length_pos.mpr h
  omega

/-- `OptimizedDatabaseManager.bulk_insert_optimized`.  Mirrors the source:
empty input returns immediately; otherwise the batching loop runs inside
`get_session`, with a final explicit `session.commit()` after the loop
(`B = 0` models `range(0, n, 0)` raising `ValueError` before any batch).
Returns the call outcome, the rows persisted in the table, and the metrics. -/
def bulk_insert_optimized {α : Type} (db : List α) (m : Metrics)
    (data : List α) (B : Nat) (failAt : Option Nat) :
    Except Unit Unit × List α × Metrics :=
  if data.isEmpty then (.ok (), db, m)
  else
    get_session m db (fun session =>
      if hB : B = 0 then .error session
      else
        match insertBatches failAt B (Nat.pos_of_ne_zero hB) 1 0 data session with
        | .ok s => .ok (commitS s)
        | .error s => .error s)

/-! ### Metrics reporter: `get_metrics` -/

/-- The dictionary returned by `get_metrics` (the fields the claims are
about; pool occupancy and Redis availability are reported alongside). -/
structure MetricsReport where
  total_queries : Nat
  cache_hits : Nat
  slow_queries : Nat
  failed_queries : Nat
  cache_hit_rate : ℚ
deriving DecidableEq, Repr

/-- `OptimizedDatabaseManager.get_metrics`:
`cache_hit_rate = (cache_hits / max(1, total_queries)) * 100`
(Python float division modelled exactly over `ℚ`). -/
def get_metrics (m : Metrics) : MetricsReport :=
  { total_queries := m.total_queries
    cache_hits := m.cache_hits
    slow_queries := m.slow_queries
    failed_queries := m.failed_queries
    cache_hit_rate :=
      ((m.cache_hits : ℚ) / ((max 1 m.total_queries : Nat) : ℚ)) * 100 }

/-! ### Initialization: `_initialize_connections` -/

/-- How initialization ended: with the pooled engine (`pooled`), with the
unpooled/uncached fallback (`fallback`), or — unreachable for the source's
`max_retries = 3` — with the retry loop never entered (`uninitialized`). -/
inductive InitMode where
  | pooled
  | fallback
  | uninitialized
deriving DecidableEq, Repr

/-- Observable outcome of initialization: the mode reached, the number of
pooled-setup attempts performed, and the `time.sleep` durations performed
between failed attempts, in order. -/
structure InitResult where
  mode : InitMode
  attempts : Nat
  sleeps : List Nat
deriving DecidableEq, Repr

/-- The retry loop of `_initialize_connections`
(`for attempt in range(max_retries)`), with `outcome a = true` meaning the
whole pooled setup of attempt `a` (engine, session factory, listeners,
connection test; a Redis failure inside the attempt is absorbed and does not
fail it) succeeds.  `attempt` counts attempts already made; `remaining` is
`max_retries - attempt`.  On a failed attempt with `attempt <
max_retries - 1`, sleep `retry_delay * (attempt + 1)` seconds and retry;
after the last failed attempt, fall back
(`self._initialize_fallback_connection()`). -/
def initGo (outcome : Nat → Bool) (retryDelay : Nat) (attempt : Nat) :
    Nat → List Nat → InitResult
  | 0, sleeps => ⟨.uninitialized, attempt, sleeps⟩
  | r + 1, sleeps =>
    if outcome attempt then ⟨.pooled, attempt + 1, sleeps⟩
    else if r = 0 then ⟨.fallback, attempt + 1, sleeps⟩
    else initGo outcome retryDelay (attempt + 1) r
           (sleeps ++ [retryDelay * (attempt + 1)])

/-- `OptimizedDatabaseManager._initialize_connections`:
`max_retries = 3`, `retry_delay = 2`. -/
def _initialize_connections (outcome : Nat → Bool) : InitResult :=
  initGo outcome 2 0 3 []

/-! ### Decoders for the JSON serialization

These are verification tools, not translations of repository code: they
invert the serialization above, which is how we prove that distinct
parameter maps produce distinct `cache_data` strings. -/

/-- Value of a lowercase hexadecimal digit character (16 marks a non-digit). -/
def hexVal (c : Char) : Nat :=
  if 48 ≤ c.toNat ∧ c.toNat ≤ 57 then c.toNat - 48
  else if 97 ≤ c.toNat ∧ c.toNat ≤ 102 then c.toNat - 87
  else 16

/-- Value of four hexadecimal digit characters. -/
def parse4 (a b c d : Char) : Nat :=
  hexVal a * 4096 + hexVal b * 256 + hexVal c * 16 + hexVal d

/-- Read back one escaped character (as a code point) from the front of a
JSON-escaped character stream, returning the remainder of the stream. -/
def decodeOne : List Char → Option (Nat × List Char)
  | [] => none
  | ch :: rest =>
    if ch = '\\' then
      match rest with
      | [] => none
      | e :: rest2 =>
        if e = 'u' then
          match rest2 with
          | a :: b :: c :: d :: rest3 =>
            if 55296 ≤ parse4 a b c d ∧ parse4 a b c d < 56320 then
              match rest3 with
              | bs :: u2 :: a2 :: b2 :: c2 :: d2 :: rest4 =>
                if bs = '\\' ∧ u2 = 'u' then
                  some (65536 + (parse4 a b c d - 55296) * 1024 +
                    (parse4 a2 b2 c2 d2 - 56320), rest4)
                else none
              | _ => none
            else some (parse4 a b c d, rest3)
          | _ => none
        else if e = '"' then some (34, rest2)
        else if e = '\\' then some (92, rest2)
        else if e = 'n' then some (10, rest2)
        else if e = 'r' then some (13, rest2)
        else if e = 't' then some (9, rest2)
        else if e = 'b' then some (8, rest2)
        else if e = 'f' then some (12, rest2)
        else none
    else some (ch.toNat, rest)

/-- Value of a decimal digit run (most significant first). -/
def parseNat (l : List Char) : Nat :=
  l.foldl (fun acc c => acc * 10 + (c.toNat - 48)) 0

/-! ## Supporting lemmas -/

theorem fetchChunks_nil (n : Nat) : fetchChunks n [] = [] := by
  rw [fetchChunks]
  simp

theorem fetchChunks_flatten (n : Nat) (hn : 0 < n) (rows : List (List JValue)) :
    (fetchChunks n rows).flatten = rows := by
  induction rows using fetchChunks.induct n with
  | case1 rows h =>
    rw [fetchChunks, if_pos h]
    simp only [List.isEmpty_iff, List.take_eq_nil_iff] at h
    rcases h with h | h
    · omega
    · simp [h]
  | case2 rows h ih =>
    rw [fetchChunks, if_neg h]
    simp only [List.flatten_cons, ih]
    exact List.take_append_drop ..

theorem fetchChunks_ne_nil (n : Nat) (hn : 0 < n) (rows : List (List JValue))
    (hr : rows ≠ []) : fetchChunks n rows ≠ [] := by
  rw [fetchChunks]
  have : ¬(rows.take n).isEmpty = true := by
    simp only [List.isEmpty_iff, List.take_eq_nil_iff]
    push_neg
    exact ⟨by omega, hr⟩
  rw [if_neg this]
  simp

/-! ## C1 — chunked fetching versus a single-shot fetch -/

/-- C1 (counterexample): for a successful query with zero rows, the chunked
path of `execute_query_optimized` returns `pd.DataFrame()`, which carries no
column names, while a single-shot fetch would carry the query's column
names; so the two results are not equal for every successful query, already
at `chunk_size = 1`. -/
theorem chunked_fetch_empty_result_no_columns :
    chunkedFetchResult ["h3"] [] 1 ≠ singleShotResult ["h3"] [] := by
  simp [chunkedFetchResult, singleShotResult, fetchChunks_nil]

/-- C1 (amended): for every `chunk_size ≥ 1` the chunked result has exactly
the rows of the single-shot fetch (same order, same values), and whenever
the query yields at least one row the two results are fully equal, column
names included; only the zero-row case differs, where the chunked path
returns a frame without column names. -/
theorem chunked_fetch_eq_single_shot (keys : List String)
    (rows : List (List JValue)) (n : Nat) (hn : 0 < n) :
    (chunkedFetchResult keys rows n).rows = (singleShotResult keys rows).rows ∧
    (rows ≠ [] → chunkedFetchResult keys rows n = singleShotResult keys rows) := by
  by_cases hr : rows = []
  · subst hr
    refine ⟨?_, fun h => absurd rfl h⟩
    simp [chunkedFetchResult, singleShotResult, fetchChunks_nil]
  · have hne := fetchChunks_ne_nil n hn rows hr
    have hfl := fetchChunks_flatten n hn rows
    have hres : chunkedFetchResult keys rows n = singleShotResult keys rows := by
      unfold chunkedFetchResult singleShotResult
      simp only [List.isEmpty_iff, if_neg hne, hfl]
    exact ⟨by rw [hres], fun _ => hres⟩

/-- C1 (witness): chunked fetching of a concrete three-row result coincides
with the single-shot fetch at chunk sizes 1, 7 and 50 (≥ the row count). -/
theorem chunked_fetch_eq_single_shot_witness :
    chunkedFetchResult ["a"] [[.int 1], [.int 2], [.int 3]] 1 =
      singleShotResult ["a"] [[.int 1], [.int 2], [.int 3]] ∧
    chunkedFetchResult ["a"] [[.int 1], [.int 2], [.int 3]] 7 =
      singleShotResult ["a"] [[.int 1], [.int 2], [.int 3]] ∧
    chunkedFetchResult ["a"] [[.int 1], [.int 2], [.int 3]] 50 =
      singleShotResult ["a"] [[.int 1], [.int 2], [.int 3]] :=
  ⟨(chunked_fetch_eq_single_shot _ _ 1 (by decide)).2 (by decide),
   (chunked_fetch_eq_single_shot _ _ 7 (by decide)).2 (by decide),
   (chunked_fetch_eq_single_shot _ _ 50 (by decide)).2 (by decide)⟩

/-! ## C7 — the reported cache hit rate -/

/-- C7 (counterexample): with 5 cache hits and 0 total queries, `get_metrics`
reports `cache_hit_rate = 500`, which is neither
`cache_hits / max(1, total_queries) = 5` nor `0`; the claim's formula omits
the `* 100` of the source and its zero case is wrong because `cache_hits`
can be positive while `total_queries` is zero. -/
theorem cache_hit_rate_is_percentage :
    (get_metrics ⟨0, 5, 0, 0⟩).cache_hit_rate ≠
      ((5 : Nat) : ℚ) / ((max 1 0 : Nat) : ℚ) ∧
    (get_metrics ⟨0, 5, 0, 0⟩).cache_hit_rate ≠ 0 := by
  constructor <;> norm_num [get_metrics]

/-- C7 (amended): `get_metrics` reports
`cache_hit_rate = (cache_hits / max(1, total_queries)) * 100`, a percentage:
it equals `cache_hits * 100` (not necessarily 0) when `total_queries` is 0 —
there is no division by zero — and `(cache_hits / total_queries) * 100`
otherwise. -/
theorem cache_hit_rate_formula (m : Metrics) :
    (m.total_queries = 0 →
      (get_metrics m).cache_hit_rate = (m.cache_hits : ℚ) * 100) ∧
    (m.total_queries ≠ 0 →
      (get_metrics m).cache_hit_rate =
        (m.cache_hits : ℚ) / (m.total_queries : ℚ) * 100) := by
  constructor
  · intro h
    simp [get_metrics, h]
  · intro h
    have hmax : max 1 m.total_queries = m.total_queries := by omega
    simp [get_metrics, hmax]

/-- C7 (witness): the amended rate formula at a zero-query state and at a
state with 4 queries and 2 hits. -/
theorem cache_hit_rate_formula_witness :
    (get_metrics ⟨0, 5, 0, 0⟩).cache_hit_rate = ((5 : Nat) : ℚ) * 100 ∧
    (get_metrics ⟨4, 2, 0, 0⟩).cache_hit_rate =
      ((2 : Nat) : ℚ) / ((4 : Nat) : ℚ) * 100 :=
  ⟨(cache_hit_rate_formula ⟨0, 5, 0, 0⟩).1 rfl,
   (cache_hit_rate_formula ⟨4, 2, 0, 0⟩).2 (by decide)⟩

/-! ## C9 — startup retry then fallback -/

/-- C9: initialization attempts the pooled setup up to 3 times, sleeping
`attempt × 2` seconds between failed attempts (2 s after the first failure,
4 s after the second); it falls back to the unpooled connection exactly when
all 3 attempts fail, and reaches fallback mode in no other way. -/
theorem init_retries_then_fallback (outcome : Nat → Bool) :
    ((∀ a, a < 3 → outcome a = false) →
      _initialize_connections outcome = ⟨.fallback, 3, [2, 4]⟩) ∧
    (∀ i, i < 3 → outcome i = true → (∀ j, j < i → outcome j = false) →
      _initialize_connections outcome = ⟨.pooled, i + 1, [2, 4].take i⟩) ∧
    ((_initialize_connections outcome).mode = .fallback →
      ∀ a, a < 3 → outcome a = false) := by
  refine ⟨?_, ?_, ?_⟩
  · intro h
    have h0 := h 0 (by omega)
    have h1 := h 1 (by omega)
    have h2 := h 2 (by omega)
    simp [_initialize_connections, initGo, h0, h1, h2]
  · intro i hi ht hprev
    interval_cases i
    · simp [_initialize_connections, initGo, ht]
    · have h0 := hprev 0 (by omega)
      simp [_initialize_connections, initGo, h0, ht]
    · have h0 := hprev 0 (by omega)
      have h1 := hprev 1 (by omega)
      simp [_initialize_connections, initGo, h0, h1, ht]
  · intro hm a ha
    cases h0 : outcome 0 with
    | true => simp [_initialize_connections, initGo, h0] at hm
    | false =>
      cases h1 : outcome 1 with
      | true => simp [_initialize_connections, initGo, h0, h1] at hm
      | false =>
        cases h2 : outcome 2 with
        | true => simp [_initialize_connections, initGo, h0, h1, h2] at hm
        | false => interval_cases a <;> assumption

/-- C9 (witness): all attempts failing yields fallback after sleeps 2 s and
4 s; success on the second attempt yields pooled mode after one 2 s sleep
and never reaches fallback. -/
theorem init_retries_then_fallback_witness :
    _initialize_connections (fun _ => false) = ⟨.fallback, 3, [2, 4]⟩ ∧
    _initialize_connections (fun a => decide (a = 1)) =
      ⟨.pooled, 2, [2, 4].take 1⟩ :=
  ⟨(init_retries_then_fallback (fun _ => false)).1 (fun _ _ => rfl),
   (init_retries_then_fallback (fun a => decide (a = 1))).2.1 1 (by decide)
     (by decide) (by decide)⟩

theorem get_from_cache_metrics (client : Option Redis) (m : Metrics)
    (key : String) :
    (_get_from_cache client m key).2.total_queries = m.total_queries ∧
    (_get_from_cache client m key).2.failed_queries = m.failed_queries ∧
    (_get_from_cache client m key).2.slow_queries = m.slow_queries := by
  unfold _get_from_cache
  cases client with
  | none => simp
  | some r =>
    by_cases hf : r.failing
    · simp [hf]
    · cases hl : List.lookup key r.store with
      | none => simp [hf, hl]
      | some p => cases p <;> simp [hf, hl]

theorem get_from_cache_hit_metrics (client : Option Redis) (m : Metrics)
    (key : String) (df : DataFrame)
    (h : (_get_from_cache client m key).1 = some df) :
    (_get_from_cache client m key).2 =
      { m with cache_hits := m.cache_hits + 1 } := by
  unfold _get_from_cache at h ⊢
  cases client with
  | none => simp at h
  | some r =>
    by_cases hf : r.failing
    · simp [hf] at h
    · cases hl : List.lookup key r.store with
      | none => simp [hf, hl] at h
      | some p =>
        cases p with
        | ok df' => simp [hf, hl]
        | corrupt => simp [hf, hl] at h

/-! ## C2 — a cache hit never touches the pool -/

/-- C2: when the cache lookup returns a stored result, the call returns that
result immediately with only `cache_hits` incremented; the pool-acquire
counter and the Redis client (and the engine outcome, which is never
consulted) are untouched. -/
theorem cache_hit_skips_pool (digest : String → String) (st : ExecState)
    (query : String) (params : List (String × JValue))
    (cache_ttl chunk_size : Nat) (engine : EngineOutcome) (df : DataFrame)
    (h : (_get_from_cache st.client st.metrics
           (_get_cache_key digest query params)).1 = some df) :
    execute_query_optimized digest st query params cache_ttl chunk_size engine =
      (.ok df,
        { st with metrics :=
            { st.metrics with cache_hits := st.metrics.cache_hits + 1 } }) ∧
    (execute_query_optimized digest st query params cache_ttl chunk_size
        engine).2.pool_acquires = st.pool_acquires ∧
    (execute_query_optimized digest st query params cache_ttl chunk_size
        engine).2.client = st.client := by
  have h2 := get_from_cache_hit_metrics _ _ _ _ h
  have hmain : execute_query_optimized digest st query params cache_ttl
      chunk_size engine =
      (.ok df,
        { st with metrics :=
            { st.metrics with cache_hits := st.metrics.cache_hits + 1 } }) := by
    simp only [execute_query_optimized]
    rw [h, h2]
  exact ⟨hmain, by rw [hmain], by rw [hmain]⟩

/-- C2 (witness): a concrete state whose store holds the computed key serves
the cached frame with no pool acquisition, even under a failing engine. -/
theorem cache_hit_skips_pool_witness :
    execute_query_optimized (fun s => s)
        ⟨some ⟨[("query_cache:q_{}", .ok ⟨["a"], [[.int 1]]⟩)], false⟩,
          ⟨0, 0, 0, 0⟩, 0⟩
        "q" [] 300 10000 .execFail =
      (.ok ⟨["a"], [[.int 1]]⟩,
        ⟨some ⟨[("query_cache:q_{}", .ok ⟨["a"], [[.int 1]]⟩)], false⟩,
          ⟨0, 1, 0, 0⟩, 0⟩) :=
  (cache_hit_skips_pool (fun s => s)
    ⟨some ⟨[("query_cache:q_{}", .ok ⟨["a"], [[.int 1]]⟩)], false⟩,
      ⟨0, 0, 0, 0⟩, 0⟩
    "q" [] 300 10000 .execFail ⟨["a"], [[.int 1]]⟩ (by decide)).1

/-! ## C10 — cache hits do not count as executed queries -/

/-- C10: a call served from the cache increments `cache_hits` by one and
leaves `total_queries` unchanged (the `after_execute` listener only fires
for statements actually run against the engine); consequently one executed
query followed by two cache hits on the same key leaves
`cache_hits = 2 > 1 = total_queries`. -/
theorem cache_hits_can_exceed_total_queries :
    (∀ (digest : String → String) (st : ExecState) (query : String)
        (params : List (String × JValue)) (cache_ttl chunk_size : Nat)
        (engine : EngineOutcome) (df : DataFrame),
      (_get_from_cache st.client st.metrics
          (_get_cache_key digest query params)).1 = some df →
      (execute_query_optimized digest st query params cache_ttl chunk_size
          engine).2.metrics.total_queries = st.metrics.total_queries ∧
      (execute_query_optimized digest st query params cache_ttl chunk_size
          engine).2.metrics.cache_hits = st.metrics.cache_hits + 1) ∧
    (execute_query_optimized (fun s => s)
        (execute_query_optimized (fun s => s)
          (execute_query_optimized (fun s => s)
            ⟨some ⟨[], false⟩, ⟨0, 0, 0, 0⟩, 0⟩
            "q" [] 300 10000 (.success ["a"] [[.int 1]])).2
          "q" [] 300 10000 .execFail).2
        "q" [] 300 10000 .execFail).2.metrics.total_queries = 1 ∧
    (execute_query_optimized (fun s => s)
        (execute_query_optimized (fun s => s)
          (execute_query_optimized (fun s => s)
            ⟨some ⟨[], false⟩, ⟨0, 0, 0, 0⟩, 0⟩
            "q" [] 300 10000 (.success ["a"] [[.int 1]])).2
          "q" [] 300 10000 .execFail).2
        "q" [] 300 10000 .execFail).2.metrics.cache_hits = 2 := by
  refine ⟨?_, ?_, ?_⟩
  · intro digest st query params cache_ttl chunk_size engine df h
    have h2 := get_from_cache_hit_metrics _ _ _ _ h
    have hmain : execute_query_optimized digest st query params cache_ttl
        chunk_size engine =
        (.ok df,
          { st with metrics :=
              { st.metrics with cache_hits := st.metrics.cache_hits + 1 } }) := by
      simp only [execute_query_optimized]
      rw [h, h2]
    rw [hmain]
    exact ⟨rfl, rfl⟩
  all_goals
    have hfc : fetchChunks 10000 [[JValue.int 1]] = [[[JValue.int 1]]] := by
      simp [fetchChunks]
    have hst1 : execute_query_optimized (fun s => s)
        ⟨some ⟨[], false⟩, ⟨0, 0, 0, 0⟩, 0⟩
        "q" [] 300 10000 (.success ["a"] [[.int 1]]) =
        (.ok ⟨["a"], [[.int 1]]⟩,
          ⟨some ⟨[("query_cache:q_{}", .ok ⟨["a"], [[.int 1]]⟩)], false⟩,
            ⟨1, 0, 0, 0⟩, 1⟩) := by
      simp [execute_query_optimized, _get_from_cache, _set_cache,
        _get_cache_key, cache_data, json_dumps, sortByKey, renderItemsAux,
        hfc]
    have hst2 : execute_query_optimized (fun s => s)
        ⟨some ⟨[("query_cache:q_{}", .ok ⟨["a"], [[.int 1]]⟩)], false⟩,
          ⟨1, 0, 0, 0⟩, 1⟩
        "q" [] 300 10000 .execFail =
        (.ok ⟨["a"], [[.int 1]]⟩,
          ⟨some ⟨[("query_cache:q_{}", .ok ⟨["a"], [[.int 1]]⟩)], false⟩,
            ⟨1, 1, 0, 0⟩, 1⟩) := by
      simp [execute_query_optimized, _get_from_cache,
        _get_cache_key, cache_data, json_dumps, sortByKey, renderItemsAux]
    have hst3 : execute_query_optimized (fun s => s)
        ⟨some ⟨[("query_cache:q_{}", .ok ⟨["a"], [[.int 1]]⟩)], false⟩,
          ⟨1, 1, 0, 0⟩, 1⟩
        "q" [] 300 10000 .execFail =
        (.ok ⟨["a"], [[.int 1]]⟩,
          ⟨some ⟨[("query_cache:q_{}", .ok ⟨["a"], [[.int 1]]⟩)], false⟩,
            ⟨1, 2, 0, 0⟩, 1⟩) := by
      simp [execute_query_optimized, _get_from_cache,
        _get_cache_key, cache_data, json_dumps, sortByKey, renderItemsAux]
    rw [hst1, hst2, hst3]

/-- C10 (witness): the hit-path metrics delta at a concrete state holding
the computed key. -/
theorem cache_hits_can_exceed_total_queries_witness :
    (execute_query_optimized (fun s => s)
        ⟨some ⟨[("query_cache:w_{}", .ok ⟨["b"], [[.int 2]]⟩)], false⟩,
          ⟨3, 1, 0, 0⟩, 5⟩
        "w" [] 300 10000 .execFail).2.metrics.total_queries = 3 ∧
    (execute_query_optimized (fun s => s)
        ⟨some ⟨[("query_cache:w_{}", .ok ⟨["b"], [[.int 2]]⟩)], false⟩,
          ⟨3, 1, 0, 0⟩, 5⟩
        "w" [] 300 10000 .execFail).2.metrics.cache_hits = 1 + 1 :=
  cache_hits_can_exceed_total_queries.1 (fun s => s)
    ⟨some ⟨[("query_cache:w_{}", .ok ⟨["b"], [[.int 2]]⟩)], false⟩,
      ⟨3, 1, 0, 0⟩, 5⟩
    "w" [] 300 10000 .execFail ⟨["b"], [[.int 2]]⟩ (by decide)

/-! ## C5 — errors after a miss: count, re-raise, cache untouched -/

/-- C5: after a cache miss, an error during connection acquisition or
statement execution (`execFail`) or during chunk fetching (`fetchFail`)
increments `failed_queries` by exactly one, makes the call raise to its
caller, and leaves the cache store unchanged — the partially read chunks
are discarded, never partially cached. -/
theorem query_error_increments_failed_and_raises (digest : String → String)
    (st : ExecState) (query : String) (params : List (String × JValue))
    (cache_ttl chunk_size : Nat)
    (hmiss : (_get_from_cache st.client st.metrics
        (_get_cache_key digest query params)).1 = none) :
    (∀ keys rowsRead,
      (execute_query_optimized digest st query params cache_ttl chunk_size
          (.fetchFail keys rowsRead)).1 = .error () ∧
      (execute_query_optimized digest st query params cache_ttl chunk_size
          (.fetchFail keys rowsRead)).2.metrics.failed_queries =
        st.metrics.failed_queries + 1 ∧
      (execute_query_optimized digest st query params cache_ttl chunk_size
          (.fetchFail keys rowsRead)).2.client = st.client) ∧
    ((execute_query_optimized digest st query params cache_ttl chunk_size
        .execFail).1 = .error () ∧
     (execute_query_optimized digest st query params cache_ttl chunk_size
        .execFail).2.metrics.failed_queries =
       st.metrics.failed_queries + 1 ∧
     (execute_query_optimized digest st query params cache_ttl chunk_size
        .execFail).2.client = st.client) := by
  have hm := get_from_cache_metrics st.client st.metrics
    (_get_cache_key digest query params)
  constructor
  · intro keys rowsRead
    simp only [execute_query_optimized]
    rw [hmiss]
    exact ⟨rfl, by simpa using hm.2.1, rfl⟩
  · simp only [execute_query_optimized]
    rw [hmiss]
    exact ⟨rfl, by simpa using hm.2.1, rfl⟩

/-- C5 (witness): a failing fetch at a concrete cache-missing state raises,
counts one failure, and leaves the store unchanged. -/
theorem query_error_increments_failed_and_raises_witness :
    (execute_query_optimized (fun s => s)
        ⟨some ⟨[], false⟩, ⟨0, 0, 0, 0⟩, 0⟩ "q" [] 300 10000
        (.fetchFail ["a"] [[.int 1]])).1 = .error () ∧
    (execute_query_optimized (fun s => s)
        ⟨some ⟨[], false⟩, ⟨0, 0, 0, 0⟩, 0⟩ "q" [] 300 10000
        (.fetchFail ["a"] [[.int 1]])).2.metrics.failed_queries = 0 + 1 ∧
    (execute_query_optimized (fun s => s)
        ⟨some ⟨[], false⟩, ⟨0, 0, 0, 0⟩, 0⟩ "q" [] 300 10000
        (.fetchFail ["a"] [[.int 1]])).2.client = some ⟨[], false⟩ :=
  (query_error_increments_failed_and_raises (fun s => s)
    ⟨some ⟨[], false⟩, ⟨0, 0, 0, 0⟩, 0⟩ "q" [] 300 10000 (by decide)).1
    ["a"] [[.int 1]]

/-! ## C8 — empty result sets are returned but never cached -/

/-- C8 (counterexample): a successful zero-row query against a healthy,
empty-store cache returns the empty frame but stores nothing: the store is
unchanged afterwards, so a repeated identical call still misses — the empty
result is not cached under the computed key, contrary to the claim. -/
theorem empty_result_cache_untouched :
    (execute_query_optimized (fun s => s)
        ⟨some ⟨[], false⟩, ⟨0, 0, 0, 0⟩, 0⟩ "q" [] 300 10000
        (.success ["a"] [])).1 = .ok ⟨[], []⟩ ∧
    (execute_query_optimized (fun s => s)
        ⟨some ⟨[], false⟩, ⟨0, 0, 0, 0⟩, 0⟩ "q" [] 300 10000
        (.success ["a"] [])).2.client = some ⟨[], false⟩ ∧
    (_get_from_cache
        (execute_query_optimized (fun s => s)
          ⟨some ⟨[], false⟩, ⟨0, 0, 0, 0⟩, 0⟩ "q" [] 300 10000
          (.success ["a"] [])).2.client
        (execute_query_optimized (fun s => s)
          ⟨some ⟨[], false⟩, ⟨0, 0, 0, 0⟩, 0⟩ "q" [] 300 10000
          (.success ["a"] [])).2.metrics
        (_get_cache_key (fun s => s) "q" [])).1 = none := by
  have hmain : execute_query_optimized (fun s => s)
      ⟨some ⟨[], false⟩, ⟨0, 0, 0, 0⟩, 0⟩ "q" [] 300 10000
      (.success ["a"] []) =
      (.ok ⟨[], []⟩, ⟨some ⟨[], false⟩, ⟨1, 0, 0, 0⟩, 1⟩) := by
    simp [execute_query_optimized, _get_from_cache, _get_cache_key,
      cache_data, json_dumps, sortByKey, renderItemsAux, fetchChunks_nil]
  rw [hmain]
  exact ⟨rfl, rfl, by decide⟩

/-- C8 (amended): a query that succeeds with zero rows returns the empty
`pd.DataFrame()` to the caller, but nothing is stored in the cache: the
executor skips `_set_cache` when no chunks were fetched (and `_set_cache`
would independently skip an empty frame), so the client is unchanged and a
repeated identical call is not served from the cache. -/
theorem empty_result_not_cached (digest : String → String) (st : ExecState)
    (query : String) (params : List (String × JValue))
    (cache_ttl chunk_size : Nat) (keys : List String)
    (hmiss : (_get_from_cache st.client st.metrics
        (_get_cache_key digest query params)).1 = none) :
    (execute_query_optimized digest st query params cache_ttl chunk_size
        (.success keys [])).1 = .ok ⟨[], []⟩ ∧
    (execute_query_optimized digest st query params cache_ttl chunk_size
        (.success keys [])).2.client = st.client := by
  simp only [execute_query_optimized]
  rw [hmiss]
  simp [fetchChunks_nil]

/-- C8 (witness): the amended statement at a concrete state with a healthy
cache client. -/
theorem empty_result_not_cached_witness :
    (execute_query_optimized (fun s => s)
        ⟨some ⟨[("k", .ok ⟨["c"], [[.int 3]]⟩)], false⟩, ⟨0, 0, 0, 0⟩, 0⟩
        "q" [] 300 10000 (.success ["a"] [])).1 = .ok ⟨[], []⟩ ∧
    (execute_query_optimized (fun s => s)
        ⟨some ⟨[("k", .ok ⟨["c"], [[.int 3]]⟩)], false⟩, ⟨0, 0, 0, 0⟩, 0⟩
        "q" [] 300 10000 (.success ["a"] [])).2.client =
      some ⟨[("k", .ok ⟨["c"], [[.int 3]]⟩)], false⟩ :=
  empty_result_not_cached (fun s => s)
    ⟨some ⟨[("k", .ok ⟨["c"], [[.int 3]]⟩)], false⟩, ⟨0, 0, 0, 0⟩, 0⟩
    "q" [] 300 10000 ["a"] (by decide)

/-! ## C4 — cache failures are absorbed at the cache layer -/

/-- C4: every failure of the cache client is absorbed where it occurs: a
raising or absent client makes `_get_from_cache` report a miss with metrics
untouched, a corrupt payload deserializes to a miss, `_set_cache` and
`clear_cache` degrade to no-ops on a raising or absent client, and a
successful engine outcome makes `execute_query_optimized` return
successfully whatever the cache client's state — no cache exception reaches
the caller. -/
theorem cache_failures_absorbed :
    (∀ (m : Metrics) (key : String) (r : Redis), r.failing = true →
      _get_from_cache (some r) m key = (none, m)) ∧
    (∀ (m : Metrics) (key : String), _get_from_cache none m key = (none, m)) ∧
    (∀ (m : Metrics) (key : String) (r : Redis),
      List.lookup key r.store = some CachePayload.corrupt →
      (_get_from_cache (some r) m key).1 = none) ∧
    (∀ (key : String) (df : DataFrame) (ttl : Nat) (r : Redis),
      r.failing = true → _set_cache (some r) key df ttl = some r) ∧
    (∀ (key : String) (df : DataFrame) (ttl : Nat),
      _set_cache none key df ttl = none) ∧
    (∀ (pat : Option String) (r : Redis), r.failing = true →
      clear_cache (some r) pat = some r) ∧
    (∀ pat, clear_cache none pat = none) ∧
    (∀ (digest : String → String) (st : ExecState) (query : String)
        (params : List (String × JValue)) (cache_ttl chunk_size : Nat)
        (keys : List String) (rows : List (List JValue)),
      (execute_query_optimized digest st query params cache_ttl chunk_size
          (.success keys rows)).1.isOk = true) := by
  refine ⟨?_, ?_, ?_, ?_, ?_, ?_, ?_, ?_⟩
  · intro m key r hf
    simp [_get_from_cache, hf]
  · intro m key
    simp [_get_from_cache]
  · intro m key r hl
    by_cases hf : r.failing <;> simp [_get_from_cache, hf, hl]
  · intro key df ttl r hf
    by_cases he : df.rows.isEmpty <;> simp [_set_cache, hf, he]
  · intro key df ttl
    simp [_set_cache]
  · intro pat r hf
    cases pat <;> simp [clear_cache, hf]
  · intro pat
    simp [clear_cache]
  · intro digest st query params cache_ttl chunk_size keys rows
    simp only [execute_query_optimized]
    cases h : (_get_from_cache st.client st.metrics
        (_get_cache_key digest query params)).1 with
    | some df => rfl
    | none =>
      by_cases hc : (fetchChunks chunk_size rows).isEmpty <;>
        simp [hc] <;> rfl

/-- C4 (witness): a raising client at concrete inputs: the lookup misses
without touching metrics, the store write and the cache clear are no-ops,
and a successful call still returns `ok` with the client absent. -/
theorem cache_failures_absorbed_witness :
    _get_from_cache (some ⟨[("k", .corrupt)], true⟩) ⟨0, 0, 0, 0⟩ "k" =
      (none, ⟨0, 0, 0, 0⟩) ∧
    _set_cache (some ⟨[], true⟩) "k" ⟨["a"], [[.int 1]]⟩ 300 =
      some ⟨[], true⟩ ∧
    clear_cache (some ⟨[("query_cache:x", .corrupt)], true⟩) none =
      some ⟨[("query_cache:x", .corrupt)], true⟩ ∧
    (execute_query_optimized (fun s => s) ⟨none, ⟨0, 0, 0, 0⟩, 0⟩ "q" []
        300 10000 (.success ["a"] [[.int 1]])).1.isOk = true :=
  ⟨cache_failures_absorbed.1 ⟨0, 0, 0, 0⟩ "k" ⟨[("k", .corrupt)], true⟩ rfl,
   cache_failures_absorbed.2.2.2.1 "k" ⟨["a"], [[.int 1]]⟩ 300 ⟨[], true⟩ rfl,
   cache_failures_absorbed.2.2.2.2.2.1 none
     ⟨[("query_cache:x", .corrupt)], true⟩ rfl,
   cache_failures_absorbed.2.2.2.2.2.2.2 (fun s => s) ⟨none, ⟨0, 0, 0, 0⟩, 0⟩
     "q" [] 300 10000 ["a"] [[.int 1]]⟩

/-! ## C6 — bulk insert batching, periodic commits, and failure -/

theorem insertBatches_step {α : Type} (failAt : Option Nat) (B : Nat)
    (hB : 0 < B) (k inserted : Nat) (remaining : List α) (s : Session α)
    (hne : remaining ≠ []) (hfail : failAt ≠ some k) :
    insertBatches failAt B hB k inserted remaining s =
      insertBatches failAt B hB (k + 1)
        (inserted + (remaining.take B).length) (remaining.drop B)
        (if (inserted + (remaining.take B).length) % (B * 10) = 0
         then commitS ⟨s.committed, s.pending ++ remaining.take B⟩
         else ⟨s.committed, s.pending ++ remaining.take B⟩) := by
  rw [insertBatches]
  rw [if_neg (by simp [hne]), if_neg hfail]

theorem insertBatches_fail_here {α : Type} (B : Nat) (hB : 0 < B)
    (k inserted : Nat) (remaining : List α) (s : Session α)
    (hne : remaining ≠ []) :
    insertBatches (some k) B hB k inserted remaining s = .error s := by
  rw [insertBatches]
  rw [if_neg (by simp [hne]), if_pos rfl]

theorem insertBatches_done {α : Type} (failAt : Option Nat) (B : Nat)
    (hB : 0 < B) (k inserted : Nat) (s : Session α) :
    insertBatches failAt B hB k inserted [] s = .ok s := by
  rw [insertBatches]
  rfl

theorem insertBatches_progress {α : Type} (B : Nat) (hB : 0 < B) (k : Nat)
    (data db : List α) (hlen : (k - 1) * B < data.length) :
    ∀ j, j ≤ k - 1 →
      insertBatches (some k) B hB 1 0 data ⟨db, []⟩ =
      insertBatches (some k) B hB (j + 1) (j * B) (data.drop (j * B))
        ⟨db ++ data.take (B * 10 * (j / 10)),
         (data.drop (B * 10 * (j / 10))).take (j * B - B * 10 * (j / 10))⟩ := by
  intro j
  induction j with
  | zero =>
    intro _
    simp
  | succ j ih =>
    intro hj1
    have hj : j ≤ k - 1 := by omega
    have hjlt : j < k - 1 := by omega
    rw [ih hj]
    have hjBlen : j * B < data.length := by
      have : j * B ≤ (k - 1) * B := Nat.mul_le_mul_right B hj
      omega
    have hne : data.drop (j * B) ≠ [] := by
      intro hcon
      have := congrArg List.length hcon
      simp at this
      omega
    have hkne : (some k : Option Nat) ≠ some (j + 1) := by
      intro hcon
      have : k = j + 1 := by injection hcon
      omega
    have hj1Blen : (j + 1) * B ≤ data.length := by
      have : (j + 1) * B ≤ (k - 1) * B := Nat.mul_le_mul_right B hj1
      omega
    have hbatchlen : ((data.drop (j * B)).take B).length = B := by
      simp only [List.length_take, List.length_drop]
      have : (j + 1) * B = j * B + B := by ring
      omega
    have hcj : B * 10 * (j / 10) ≤ j * B := by
      have h1 : 10 * (j / 10) ≤ j := by omega
      calc B * 10 * (j / 10) = B * (10 * (j / 10)) := by ring
        _ ≤ B * j := Nat.mul_le_mul_left B h1
        _ = j * B := by ring
    rw [insertBatches_step (some k) B hB (j + 1) (j * B) _ _ hne hkne]
    rw [hbatchlen]
    have hsm : j * B + B = (j + 1) * B := by ring
    have hdd : (data.drop (j * B)).drop B = data.drop ((j + 1) * B) := by
      rw [List.drop_drop, hsm]
    have hmod : (j + 1) * B % (B * 10) = (j + 1) % 10 * B := by
      rw [Nat.mul_comm B 10]
      exact Nat.mul_mod_mul_right ..
    have e1 : (data.drop (B * 10 * (j / 10))).take
          (j * B - B * 10 * (j / 10)) ++ (data.drop (j * B)).take B =
        (data.drop (B * 10 * (j / 10))).take
          ((j + 1) * B - B * 10 * (j / 10)) := by
      have e2 : (data.drop (B * 10 * (j / 10))).drop
          (j * B - B * 10 * (j / 10)) = data.drop (j * B) := by
        rw [List.drop_drop]
        congr 1
        omega
      rw [← e2, ← List.take_add]
      congr 1
      omega
    by_cases h10 : (j + 1) % 10 = 0
    · have hcond : (j * B + B) % (B * 10) = 0 := by
        rw [hsm, hmod, h10, Nat.zero_mul]
      rw [if_pos hcond]
      have hc1 : 10 * ((j + 1) / 10) = j + 1 := by omega
      have hcnew : B * 10 * ((j + 1) / 10) = (j + 1) * B := by
        calc B * 10 * ((j + 1) / 10) = B * (10 * ((j + 1) / 10)) := by ring
          _ = B * (j + 1) := by rw [hc1]
          _ = (j + 1) * B := by ring
      have hsess : commitS
          (⟨db ++ data.take (B * 10 * (j / 10)),
            (data.drop (B * 10 * (j / 10))).take
                (j * B - B * 10 * (j / 10)) ++
              (data.drop (j * B)).take B⟩ : Session α) =
          ⟨db ++ data.take (B * 10 * ((j + 1) / 10)),
            (data.drop (B * 10 * ((j + 1) / 10))).take
              ((j + 1) * B - B * 10 * ((j + 1) / 10))⟩ := by
        simp only [commitS]
        have hz : (j + 1) * B - B * 10 * ((j + 1) / 10) = 0 := by
          rw [hcnew]
          omega
        rw [hz, List.take_zero, e1, hcnew]
        have e3 : data.take (B * 10 * (j / 10)) ++
            (data.drop (B * 10 * (j / 10))).take
              ((j + 1) * B - B * 10 * (j / 10)) =
            data.take ((j + 1) * B) := by
          rw [← List.take_add]
          congr 1
          omega
        rw [List.append_assoc, e3]
      rw [hsm, hdd, hsess]
    · have hcond : ¬((j * B + B) % (B * 10) = 0) := by
        rw [hsm, hmod]
        intro hcon
        rcases Nat.mul_eq_zero.mp hcon with h | h
        · exact h10 h
        · omega
      rw [if_neg hcond]
      have hc1 : (j + 1) / 10 = j / 10 := by omega
      rw [hsm, hdd, e1, hc1]

theorem insertBatches_ok {α : Type} (B : Nat) (hB : 0 < B) :
    ∀ (n : Nat) (remaining : List α), remaining.length ≤ n →
    ∀ (k inserted : Nat) (s : Session α),
      ∃ s', insertBatches none B hB k inserted remaining s = .ok s' ∧
        s'.committed ++ s'.pending = s.committed ++ s.pending ++ remaining := by
  intro n
  induction n with
  | zero =>
    intro remaining hlen k inserted s
    have : remaining = [] := by
      cases remaining with
      | nil => rfl
      | cons a t => simp at hlen
    subst this
    exact ⟨s, insertBatches_done .., by simp⟩
  | succ n ih =>
    intro remaining hlen k inserted s
    cases hrem : remaining with
    | nil => exact ⟨s, insertBatches_done .., by simp⟩
    | cons a t =>
      have hne : remaining ≠ [] := by simp [hrem]
      rw [← hrem]
      rw [insertBatches_step none B hB k inserted remaining s hne (by simp)]
      have hdlen : (remaining.drop B).length ≤ n := by
        simp only [List.length_drop]
        have : 0 < remaining.length := by simp [hrem]
        omega
      obtain ⟨s', h1, h2⟩ := ih (remaining.drop B) hdlen (k + 1)
        (inserted + (remaining.take B).length) _
      refine ⟨s', h1, ?_⟩
      rw [h2]
      by_cases hc : (inserted + (remaining.take B).length) % (B * 10) = 0
      · rw [if_pos hc]
        simp [commitS, List.append_assoc, List.take_append_drop]
      · rw [if_neg hc]
        simp [List.append_assoc, List.take_append_drop]

/-- C6 (counterexample): with `batchSize = 1` and 12 single-row batches,
injecting a failure at batch `k = 12` leaves only the 10 rows committed at
the periodic commit (`inserted % (batch_size * 10) == 0`) persisted — not
the 11 rows of batches 1..k-1 the claim requires. -/
theorem bulk_insert_persists_commit_window_only :
    bulk_insert_optimized ([] : List Nat) ⟨0, 0, 0, 0⟩
        [0, 1, 2, 3, 4, 5, 6, 7, 8, 9, 10, 11] 1 (some 12) =
      (.error (), [0, 1, 2, 3, 4, 5, 6, 7, 8, 9], ⟨0, 0, 0, 1⟩) ∧
    ([0, 1, 2, 3, 4, 5, 6, 7, 8, 9] : List Nat) ≠
      [0, 1, 2, 3, 4, 5, 6, 7, 8, 9, 10] := by
  constructor
  · simp [bulk_insert_optimized, get_session, insertBatches, commitS]
  · decide

/-- C6 (amended): `bulk_insert_optimized` splits N rows into `⌈N/B⌉`
consecutive batches of `batchSize = B`, committing at the end and
periodically every `batchSize * 10` rows; if the insert of batch `k` fails,
the uncommitted work is rolled back, the error surfaces to the caller, and
exactly the rows of batches `1 .. 10·⌊(k−1)/10⌋` — those up to the last
periodic commit before batch `k`, not `1 .. k−1` — remain persisted, with
`failed_queries` incremented once; with no failure all N rows persist. -/
theorem bulk_insert_commit_window_semantics :
    (∀ (α : Type) (db data : List α) (m : Metrics) (B k : Nat),
      0 < B → 0 < k → (k - 1) * B < data.length →
      bulk_insert_optimized db m data B (some k) =
        (.error (), db ++ data.take (B * 10 * ((k - 1) / 10)),
          { m with failed_queries := m.failed_queries + 1 })) ∧
    (∀ (α : Type) (db data : List α) (m : Metrics) (B : Nat), 0 < B →
      bulk_insert_optimized db m data B none = (.ok (), db ++ data, m)) := by
  constructor
  · intro α db data m B k hB hk hlen
    have hdata : ¬(data.isEmpty = true) := by
      simp only [List.isEmpty_iff]
      intro hcon
      subst hcon
      simp at hlen
    have h0 : ¬(B = 0) := by omega
    simp only [bulk_insert_optimized]
    rw [if_neg hdata]
    simp only [get_session]
    rw [dif_neg h0]
    rw [insertBatches_progress B (Nat.pos_of_ne_zero h0) k data db hlen
      (k - 1) (le_refl _)]
    have hne : data.drop ((k - 1) * B) ≠ [] := by
      intro hcon
      have := congrArg List.length hcon
      simp at this
      omega
    rw [show k - 1 + 1 = k from by omega]
    rw [insertBatches_fail_here B (Nat.pos_of_ne_zero h0) k ((k - 1) * B)
      _ _ hne]
  · intro α db data m B hB
    have h0 : ¬(B = 0) := by omega
    by_cases hdata : data.isEmpty
    · have : data = [] := List.isEmpty_iff.mp hdata
      subst this
      simp [bulk_insert_optimized]
    · simp only [bulk_insert_optimized]
      rw [if_neg hdata]
      simp only [get_session]
      rw [dif_neg h0]
      obtain ⟨s', h1, h2⟩ := insertBatches_ok B (Nat.pos_of_ne_zero h0)
        data.length data (le_refl _) 1 0 ⟨db, []⟩
      rw [h1]
      simp only [commitS] at h2 ⊢
      simp at h2
      simp [h2]

/-- C6 (witness): three rows with `batchSize = 2`: a failure at batch 2
(before any periodic commit) persists nothing new and surfaces the error;
without failure all rows persist. -/
theorem bulk_insert_commit_window_semantics_witness :
    bulk_insert_optimized ([] : List Nat) ⟨0, 0, 0, 0⟩ [1, 2, 3] 2
        (some 2) =
      (.error (), [] ++ [1, 2, 3].take (2 * 10 * ((2 - 1) / 10)),
        ⟨0, 0, 0, 1⟩) ∧
    bulk_insert_optimized ([] : List Nat) ⟨0, 0, 0, 0⟩ [1, 2, 3] 2 none =
      (.ok (), [] ++ [1, 2, 3], ⟨0, 0, 0, 0⟩) :=
  ⟨bulk_insert_commit_window_semantics.1 Nat [] [1, 2, 3] ⟨0, 0, 0, 0⟩ 2 2
      (by decide) (by decide) (by decide),
   bulk_insert_commit_window_semantics.2 Nat [] [1, 2, 3] ⟨0, 0, 0, 0⟩ 2
      (by decide)⟩

/-! ## C3 — cache-key determinism and injectivity -/

theorem char_bounds (c : Char) :
    c.toNat < 1114112 ∧ ¬(55296 ≤ c.toNat ∧ c.toNat < 57344) := by
  have h := c.valid
  simp only [UInt32.isValidChar, Nat.isValidChar] at h
  have h2 : c.toNat = c.val.toNat := rfl
  rw [h2]
  constructor <;> omega

theorem char_toNat_inj {a b : Char} (h : a.toNat = b.toNat) : a = b := by
  have ha := Char.ofNat_toNat a
  have hb := Char.ofNat_toNat b
  rw [← ha, ← hb, h]

theorem string_data_inj {a b : String} (h : a.data = b.data) : a = b := by
  cases a
  cases b
  exact congrArg String.mk h

theorem string_append_cancel_left {s a b : String} (h : s ++ a = s ++ b) :
    a = b := by
  have hd := congrArg String.data h
  rw [String.data_append, String.data_append] at hd
  exact string_data_inj (List.append_cancel_left hd)

theorem hexVal_hexDigit : ∀ d, d < 16 → hexVal (hexDigit d) = d := by decide

theorem parse4_hex4 (v : Nat) (hv : v < 65536) :
    parse4 (hexDigit (v / 4096 % 16)) (hexDigit (v / 256 % 16))
      (hexDigit (v / 16 % 16)) (hexDigit (v % 16)) = v := by
  unfold parse4
  rw [hexVal_hexDigit _ (by omega), hexVal_hexDigit _ (by omega),
    hexVal_hexDigit _ (by omega), hexVal_hexDigit _ (by omega)]
  omega

theorem decodeOne_escape (c : Char) (r : List Char) :
    decodeOne (escape c ++ r) = some (c.toNat, r) := by
  have hb := char_bounds c
  by_cases h1 : c = '"'
  · subst h1
    simp [escape, decodeOne]
  by_cases h2 : c = '\\'
  · subst h2
    simp [escape, decodeOne]
  by_cases h3 : c = '\n'
  · subst h3
    simp [escape, decodeOne]
  by_cases h4 : c = '\r'
  · subst h4
    simp [escape, decodeOne]
  by_cases h5 : c = '\t'
  · subst h5
    simp [escape, decodeOne]
  by_cases h6 : c.toNat = 8
  · simp [escape, h1, h2, h3, h4, h5, h6, decodeOne]
  by_cases h7 : c.toNat = 12
  · simp [escape, h1, h2, h3, h4, h5, h6, h7, decodeOne]
  by_cases h8 : c.toNat < 32
  · simp only [escape, if_neg h1, if_neg h2, if_neg h3, if_neg h4, if_neg h5,
      if_neg h6, if_neg h7, if_pos h8, hex4, List.cons_append]
    simp [decodeOne, parse4_hex4 c.toNat (show c.toNat < 65536 by omega),
      show ¬(55296 ≤ c.toNat ∧ c.toNat < 56320) by omega]
  by_cases h9 : c.toNat < 127
  · simp only [escape, if_neg h1, if_neg h2, if_neg h3, if_neg h4, if_neg h5,
      if_neg h6, if_neg h7, if_neg h8, if_pos h9, List.cons_append,
      List.nil_append]
    simp [decodeOne, h2]
  by_cases h10 : c.toNat < 65536
  · simp only [escape, if_neg h1, if_neg h2, if_neg h3, if_neg h4, if_neg h5,
      if_neg h6, if_neg h7, if_neg h8, if_neg h9, if_pos h10, hex4,
      List.cons_append]
    simp [decodeOne, parse4_hex4 c.toNat h10,
      show ¬(55296 ≤ c.toNat ∧ c.toNat < 56320) by omega]
  · simp only [escape, if_neg h1, if_neg h2, if_neg h3, if_neg h4, if_neg h5,
      if_neg h6, if_neg h7, if_neg h8, if_neg h9, if_neg h10, hex4,
      List.cons_append, List.append_assoc, List.nil_append]
    simp only [decodeOne,
      parse4_hex4 (55296 + (c.toNat - 65536) / 1024) (by omega),
      parse4_hex4 (56320 + (c.toNat - 65536) % 1024) (by omega)]
    simp [show 55296 ≤ 55296 + (c.toNat - 65536) / 1024 ∧
        55296 + (c.toNat - 65536) / 1024 < 56320 by omega]
    omega

theorem encodeChars_cancel :
    ∀ (s1 s2 r1 r2 : List Char),
      encodeChars s1 ++ '"' :: r1 = encodeChars s2 ++ '"' :: r2 →
      s1 = s2 ∧ r1 = r2 := by
  intro s1
  induction s1 with
  | nil =>
    intro s2 r1 r2 h
    cases s2 with
    | nil =>
      simp only [encodeChars, List.nil_append, List.cons.injEq] at h
      exact ⟨rfl, h.2⟩
    | cons c t =>
      exfalso
      simp only [encodeChars, List.nil_append, List.append_assoc] at h
      have h' := congrArg decodeOne h
      rw [decodeOne_escape] at h'
      have hq : decodeOne ('"' :: r1) = some ('"'.toNat, r1) := by
        simp [decodeOne]
      rw [hq] at h'
      simp only [Option.some.injEq, Prod.mk.injEq] at h'
      have hc : c = '"' := char_toNat_inj h'.1.symm
      subst hc
      have : escape '"' = ['\\', '"'] := by simp [escape]
      rw [this] at h
      simp at h
  | cons c1 t1 ih =>
    intro s2 r1 r2 h
    cases s2 with
    | nil =>
      exfalso
      simp only [encodeChars, List.nil_append, List.append_assoc] at h
      have h' := congrArg decodeOne h
      rw [decodeOne_escape] at h'
      have hq : decodeOne ('"' :: r2) = some ('"'.toNat, r2) := by
        simp [decodeOne]
      rw [hq] at h'
      simp only [Option.some.injEq, Prod.mk.injEq] at h'
      have hc : c1 = '"' := char_toNat_inj h'.1
      subst hc
      have : escape '"' = ['\\', '"'] := by simp [escape]
      rw [this] at h
      simp at h
    | cons c2 t2 =>
      simp only [encodeChars, List.append_assoc] at h
      have h' := congrArg decodeOne h
      rw [decodeOne_escape, decodeOne_escape] at h'
      simp only [Option.some.injEq, Prod.mk.injEq] at h'
      obtain ⟨hc, ht⟩ := h'
      have hcc : c1 = c2 := char_toNat_inj hc
      subst hcc
      obtain ⟨h1, h2⟩ := ih t2 r1 r2 ht
      exact ⟨by rw [h1], h2⟩

theorem natChars_ne_nil (n : Nat) : natChars n ≠ [] := by
  rw [natChars]
  split <;> simp

theorem digitChar_isDigit : ∀ d, d < 10 → (digitChar d).isDigit = true := by
  decide

theorem digitChar_toNat : ∀ d, d < 10 → (digitChar d).toNat = 48 + d := by
  decide

theorem natChars_digits (n : Nat) : ∀ c ∈ natChars n, c.isDigit = true := by
  induction n using Nat.strong_induction_on with
  | _ n ih =>
    rw [natChars]
    by_cases h : n < 10
    · rw [if_pos h]
      intro c hc
      simp only [List.mem_singleton] at hc
      subst hc
      exact digitChar_isDigit n h
    · rw [if_neg h]
      intro c hc
      rcases List.mem_append.mp hc with hm | hm
      · exact ih (n / 10) (Nat.div_lt_self (by omega) (by omega)) c hm
      · simp only [List.mem_singleton] at hm
        subst hm
        exact digitChar_isDigit (n % 10) (by omega)

theorem parseNat_natChars_aux (n : Nat) :
    ∀ acc, List.foldl (fun acc c => acc * 10 + (c.toNat - 48)) acc
      (natChars n) = acc * 10 ^ (natChars n).length + n := by
  induction n using Nat.strong_induction_on with
  | _ n ih =>
    intro acc
    rw [natChars]
    by_cases h : n < 10
    · rw [if_pos h]
      simp only [List.foldl_cons, List.foldl_nil, List.length_singleton,
        pow_one]
      rw [digitChar_toNat n h]
      omega
    · rw [if_neg h]
      rw [List.foldl_append]
      rw [ih (n / 10) (Nat.div_lt_self (by omega) (by omega)) acc]
      simp only [List.foldl_cons, List.foldl_nil, List.length_append,
        List.length_singleton]
      rw [digitChar_toNat (n % 10) (by omega)]
      have hdm : n / 10 * 10 + n % 10 = n := by omega
      calc (acc * 10 ^ (natChars (n / 10)).length + n / 10) * 10 +
            (48 + n % 10 - 48)
          = acc * (10 ^ (natChars (n / 10)).length * 10) +
            (n / 10 * 10 + n % 10) := by ring_nf; omega
        _ = acc * 10 ^ ((natChars (n / 10)).length + 1) + n := by
            rw [hdm, pow_succ]

theorem parseNat_natChars (n : Nat) : parseNat (natChars n) = n := by
  have h := parseNat_natChars_aux n 0
  simpa [parseNat] using h

theorem natChars_inj {m n : Nat} (h : natChars m = natChars n) : m = n := by
  have hm := parseNat_natChars m
  rw [h, parseNat_natChars] at hm
  omega

theorem digits_append_cancel :
    ∀ (A1 A2 r1 r2 : List Char),
      (∀ c ∈ A1, c.isDigit = true) → (∀ c ∈ A2, c.isDigit = true) →
      (∀ c, r1.head? = some c → c.isDigit = false) →
      (∀ c, r2.head? = some c → c.isDigit = false) →
      A1 ++ r1 = A2 ++ r2 → A1 = A2 ∧ r1 = r2 := by
  intro A1
  induction A1 with
  | nil =>
    intro A2 r1 r2 _ hA2 hr1 _ h
    cases A2 with
    | nil => exact ⟨rfl, by simpa using h⟩
    | cons c t =>
      exfalso
      simp only [List.nil_append, List.cons_append] at h
      have hhd : r1.head? = some c := by rw [h]; rfl
      have := hr1 c hhd
      have := hA2 c (by simp)
      simp_all
  | cons c1 t1 ih =>
    intro A2 r1 r2 hA1 hA2 hr1 hr2 h
    cases A2 with
    | nil =>
      exfalso
      simp only [List.nil_append, List.cons_append] at h
      have hhd : r2.head? = some c1 := by rw [← h]; rfl
      have := hr2 c1 hhd
      have := hA1 c1 (by simp)
      simp_all
    | cons c2 t2 =>
      simp only [List.cons_append, List.cons.injEq] at h
      obtain ⟨hc, ht⟩ := h
      obtain ⟨h1, h2⟩ := ih t2 r1 r2 (fun c hc' => hA1 c (by simp [hc']))
        (fun c hc' => hA2 c (by simp [hc'])) hr1 hr2 ht
      exact ⟨by rw [hc, h1], h2⟩

theorem intChars_digits_or_minus (i : Int) :
    (∃ t, intChars i = '-' :: t) ∨
    (∃ d t, intChars i = d :: t ∧ d.isDigit = true) := by
  unfold intChars
  by_cases h : i < 0
  · rw [if_pos h]
    exact .inl ⟨natChars i.natAbs, rfl⟩
  · rw [if_neg h]
    right
    cases hn : natChars i.toNat with
    | nil => exact absurd hn (natChars_ne_nil _)
    | cons d t =>
      refine ⟨d, t, rfl, ?_⟩
      exact natChars_digits i.toNat d (by rw [hn]; simp)

theorem intChars_cancel {i1 i2 : Int} {r1 r2 : List Char}
    (hr1 : ∀ c, r1.head? = some c → c.isDigit = false ∧ c ≠ '-')
    (hr2 : ∀ c, r2.head? = some c → c.isDigit = false ∧ c ≠ '-')
    (h : intChars i1 ++ r1 = intChars i2 ++ r2) : i1 = i2 ∧ r1 = r2 := by
  unfold intChars at h
  by_cases h1 : i1 < 0 <;> by_cases h2 : i2 < 0
  · rw [if_pos h1, if_pos h2] at h
    simp only [List.cons_append, List.cons.injEq] at h
    obtain ⟨hA, hr⟩ := digits_append_cancel (natChars i1.natAbs)
      (natChars i2.natAbs) r1 r2 (natChars_digits _) (natChars_digits _)
      (fun c hc => (hr1 c hc).1) (fun c hc => (hr2 c hc).1) h.2
    have := natChars_inj hA
    exact ⟨by omega, hr⟩
  · exfalso
    rw [if_pos h1, if_neg h2] at h
    cases hn : natChars i2.toNat with
    | nil => exact natChars_ne_nil _ hn
    | cons d t =>
      rw [hn] at h
      simp only [List.cons_append, List.cons.injEq] at h
      have hd : d.isDigit = true := natChars_digits i2.toNat d (by rw [hn]; simp)
      rw [← h.1] at hd
      simp at hd
  · exfalso
    rw [if_neg h1, if_pos h2] at h
    cases hn : natChars i1.toNat with
    | nil => exact natChars_ne_nil _ hn
    | cons d t =>
      rw [hn] at h
      simp only [List.cons_append, List.cons.injEq] at h
      have hd : d.isDigit = true := natChars_digits i1.toNat d (by rw [hn]; simp)
      rw [h.1] at hd
      simp at hd
  · rw [if_neg h1, if_neg h2] at h
    obtain ⟨hA, hr⟩ := digits_append_cancel (natChars i1.toNat)
      (natChars i2.toNat) r1 r2 (natChars_digits _) (natChars_digits _)
      (fun c hc => (hr1 c hc).1) (fun c hc => (hr2 c hc).1) h
    have := natChars_inj hA
    exact ⟨by omega, hr⟩

theorem sep_head_facts {r : List Char}
    (hr : r.head? = some ',' ∨ r.head? = some '}') :
    ∀ c, r.head? = some c → c.isDigit = false ∧ c ≠ '-' := by
  intro c hc
  rcases hr with h | h <;> rw [h] at hc <;>
    simp only [Option.some.injEq] at hc <;> subst hc <;> exact ⟨by decide, by decide⟩

theorem renderValue_cancel {v1 v2 : JValue} {r1 r2 : List Char}
    (hr1 : r1.head? = some ',' ∨ r1.head? = some '}')
    (hr2 : r2.head? = some ',' ∨ r2.head? = some '}')
    (h : renderValue v1 ++ r1 = renderValue v2 ++ r2) :
    v1 = v2 ∧ r1 = r2 := by
  cases v1 with
  | str s1 =>
    cases v2 with
    | str s2 =>
      simp only [renderValue, List.cons_append, List.append_assoc,
        List.singleton_append, List.cons.injEq, true_and] at h
      obtain ⟨hs, hr⟩ := encodeChars_cancel s1.data s2.data r1 r2 h
      exact ⟨by rw [string_data_inj hs], hr⟩
    | int i2 =>
      exfalso
      simp only [renderValue, List.cons_append] at h
      rcases intChars_digits_or_minus i2 with ⟨t, ht⟩ | ⟨d, t, ht, hd⟩ <;>
        rw [ht] at h <;> simp only [List.cons_append, List.cons.injEq] at h
      · exact absurd h.1 (by decide)
      · rw [← h.1] at hd
        simp at hd
  | int i1 =>
    cases v2 with
    | str s2 =>
      exfalso
      simp only [renderValue, List.cons_append] at h
      rcases intChars_digits_or_minus i1 with ⟨t, ht⟩ | ⟨d, t, ht, hd⟩ <;>
        rw [ht] at h <;> simp only [List.cons_append, List.cons.injEq] at h
      · exact absurd h.1.symm (by decide)
      · rw [h.1] at hd
        simp at hd
    | int i2 =>
      simp only [renderValue] at h
      obtain ⟨hi, hr⟩ := intChars_cancel (sep_head_facts hr1)
        (sep_head_facts hr2) h
      exact ⟨by rw [hi], hr⟩

theorem renderItem_cancel {kv1 kv2 : String × JValue} {r1 r2 : List Char}
    (hr1 : r1.head? = some ',' ∨ r1.head? = some '}')
    (hr2 : r2.head? = some ',' ∨ r2.head? = some '}')
    (h : renderItem kv1 ++ r1 = renderItem kv2 ++ r2) :
    kv1 = kv2 ∧ r1 = r2 := by
  simp only [renderItem, List.cons_append, List.append_assoc,
    List.cons.injEq, true_and] at h
  obtain ⟨hk, hrest⟩ := encodeChars_cancel kv1.1.data kv2.1.data _ _ h
  simp only [List.cons.injEq, true_and] at hrest
  obtain ⟨hv, hr⟩ := renderValue_cancel hr1 hr2 hrest
  refine ⟨?_, hr⟩
  obtain ⟨k1, v1⟩ := kv1
  obtain ⟨k2, v2⟩ := kv2
  simp only at hk hv
  rw [string_data_inj hk, hv]

theorem renderItemsAux_cons_head (kv : String × JValue)
    (t : List (String × JValue)) :
    ∃ tail, renderItemsAux (kv :: t) = '"' :: tail := by
  cases t with
  | nil =>
    simp only [renderItemsAux, renderItem]
    exact ⟨_, rfl⟩
  | cons x xs =>
    simp only [renderItemsAux, renderItem, List.cons_append]
    exact ⟨_, rfl⟩

theorem renderItemsAux_cancel :
    ∀ (l1 : List (String × JValue)) (l2 : List (String × JValue))
      (r1 r2 : List Char),
      renderItemsAux l1 ++ '}' :: r1 = renderItemsAux l2 ++ '}' :: r2 →
      l1 = l2 ∧ r1 = r2 := by
  intro l1
  induction l1 with
  | nil =>
    intro l2 r1 r2 h
    cases l2 with
    | nil =>
      simp only [renderItemsAux, List.nil_append, List.cons.injEq] at h
      exact ⟨rfl, h.2⟩
    | cons kv2 t2 =>
      exfalso
      obtain ⟨tail, htail⟩ := renderItemsAux_cons_head kv2 t2
      rw [htail] at h
      simp only [renderItemsAux, List.nil_append, List.cons_append,
        List.cons.injEq] at h
      exact absurd h.1 (by decide)
  | cons kv1 t1 ih =>
    intro l2 r1 r2 h
    cases l2 with
    | nil =>
      exfalso
      obtain ⟨tail, htail⟩ := renderItemsAux_cons_head kv1 t1
      rw [htail] at h
      simp only [renderItemsAux, List.nil_append, List.cons_append,
        List.cons.injEq] at h
      exact absurd h.1 (by decide)
    | cons kv2 t2 =>
      cases t1 with
      | nil =>
        cases t2 with
        | nil =>
          simp only [renderItemsAux] at h
          obtain ⟨hkv, hr⟩ := renderItem_cancel (.inr (by rfl)) (.inr (by rfl)) h
          simp only [List.cons.injEq] at hr
          exact ⟨by rw [hkv], hr.2⟩
        | cons x2 s2 =>
          exfalso
          simp only [renderItemsAux, List.cons_append, List.append_assoc] at h
          obtain ⟨-, hr⟩ := renderItem_cancel (.inr (by rfl)) (.inl (by rfl)) h
          simp only [List.cons.injEq] at hr
          exact absurd hr.1 (by decide)
      | cons y1 s1 =>
        cases t2 with
        | nil =>
          exfalso
          simp only [renderItemsAux, List.cons_append, List.append_assoc] at h
          obtain ⟨-, hr⟩ := renderItem_cancel (.inl (by rfl)) (.inr (by rfl)) h
          simp only [List.cons.injEq] at hr
          exact absurd hr.1 (by decide)
        | cons x2 s2 =>
          simp only [renderItemsAux, List.cons_append, List.append_assoc] at h
          obtain ⟨hkv, hr⟩ := renderItem_cancel (.inl (by rfl)) (.inl (by rfl)) h
          simp only [List.cons.injEq, true_and] at hr
          obtain ⟨h1, h2⟩ := ih (x2 :: s2) r1 r2 hr
          exact ⟨by rw [hkv, h1], h2⟩

theorem json_dumps_inj_sorted {l1 l2 : List (String × JValue)}
    (h : json_dumps l1 = json_dumps l2) : sortByKey l1 = sortByKey l2 := by
  unfold json_dumps at h
  have hd := congrArg String.data h
  simp only [List.cons.injEq, true_and] at hd
  have hd2 : renderItemsAux (sortByKey l1) ++ '}' :: [] =
      renderItemsAux (sortByKey l2) ++ '}' :: [] := by
    simpa using hd
  exact (renderItemsAux_cancel _ _ _ _ hd2).1

theorem charsLe_total : ∀ a b : List Char,
    charsLe a b = true ∨ charsLe b a = true := by
  intro a
  induction a with
  | nil => intro b; left; rfl
  | cons c1 t1 ih =>
    intro b
    cases b with
    | nil => right; rfl
    | cons c2 t2 =>
      simp only [charsLe]
      by_cases h1 : c1.toNat < c2.toNat
      · left; rw [if_pos h1]
      · by_cases h2 : c2.toNat < c1.toNat
        · right; rw [if_pos h2]
        · rw [if_neg h1, if_neg h2, if_neg h2, if_neg h1]
          exact ih t2

theorem charsLe_trans : ∀ a b c : List Char,
    charsLe a b = true → charsLe b c = true → charsLe a c = true := by
  intro a
  induction a with
  | nil => intro b c _ _; rfl
  | cons c1 t1 ih =>
    intro b c hab hbc
    cases b with
    | nil => simp [charsLe] at hab
    | cons c2 t2 =>
      cases c with
      | nil => simp [charsLe] at hbc
      | cons c3 t3 =>
        simp only [charsLe] at hab hbc ⊢
        by_cases h12 : c1.toNat < c2.toNat <;>
          by_cases h23 : c2.toNat < c3.toNat
        · rw [if_pos (by omega)]
        · rw [if_neg h23] at hbc
          by_cases h32 : c3.toNat < c2.toNat
          · rw [if_pos h32] at hbc
            simp at hbc
          · rw [if_neg h32] at hbc
            rw [if_pos (by omega)]
        · rw [if_neg h12] at hab
          by_cases h21 : c2.toNat < c1.toNat
          · rw [if_pos h21] at hab
            simp at hab
          · rw [if_neg h21] at hab
            rw [if_pos (by omega)]
        · rw [if_neg h12] at hab
          rw [if_neg h23] at hbc
          by_cases h21 : c2.toNat < c1.toNat
          · rw [if_pos h21] at hab
            simp at hab
          · by_cases h32 : c3.toNat < c2.toNat
            · rw [if_pos h32] at hbc
              simp at hbc
            · rw [if_neg h21] at hab
              rw [if_neg h32] at hbc
              rw [if_neg (by omega), if_neg (by omega)]
              exact ih t2 t3 hab hbc

theorem charsLe_antisymm : ∀ a b : List Char,
    charsLe a b = true → charsLe b a = true → a = b := by
  intro a
  induction a with
  | nil =>
    intro b _ hba
    cases b with
    | nil => rfl
    | cons c t => simp [charsLe] at hba
  | cons c1 t1 ih =>
    intro b hab hba
    cases b with
    | nil => simp [charsLe] at hab
    | cons c2 t2 =>
      simp only [charsLe] at hab hba
      by_cases h12 : c1.toNat < c2.toNat
      · rw [if_neg (by omega), if_pos h12] at hba
        simp at hba
      · by_cases h21 : c2.toNat < c1.toNat
        · rw [if_neg h12, if_pos h21] at hab
          simp at hab
        · rw [if_neg h12, if_neg h21] at hab
          rw [if_neg h21, if_neg h12] at hba
          have hc : c1 = c2 := char_toNat_inj (by omega)
          rw [hc, ih t2 hab hba]

theorem strLe_total (a b : String) : strLe a b = true ∨ strLe b a = true :=
  charsLe_total a.data b.data

theorem strLe_trans {a b c : String} (hab : strLe a b = true)
    (hbc : strLe b c = true) : strLe a c = true :=
  charsLe_trans a.data b.data c.data hab hbc

theorem strLe_antisymm {a b : String} (hab : strLe a b = true)
    (hba : strLe b a = true) : a = b :=
  string_data_inj (charsLe_antisymm a.data b.data hab hba)

theorem insertSorted_perm (x : String × JValue) (l : List (String × JValue)) :
    (insertSorted x l).Perm (x :: l) := by
  induction l with
  | nil => exact List.Perm.refl _
  | cons y ys ih =>
    simp only [insertSorted]
    by_cases h : strLe x.1 y.1 = true
    · rw [if_pos h]
    · rw [if_neg h]
      exact (ih.cons y).trans (List.Perm.swap x y ys)

theorem sortByKey_perm (l : List (String × JValue)) : (sortByKey l).Perm l := by
  induction l with
  | nil => exact List.Perm.refl _
  | cons x t ih =>
    simp only [sortByKey, List.foldr_cons]
    exact (insertSorted_perm x _).trans (ih.cons x)

theorem insertSorted_pairwise (x : String × JValue)
    (l : List (String × JValue))
    (hl : l.Pairwise (fun a b => strLe a.1 b.1 = true)) :
    (insertSorted x l).Pairwise (fun a b => strLe a.1 b.1 = true) := by
  induction l with
  | nil => simp [insertSorted]
  | cons y ys ih =>
    rw [List.pairwise_cons] at hl
    obtain ⟨hy, hys⟩ := hl
    simp only [insertSorted]
    by_cases h : strLe x.1 y.1 = true
    · rw [if_pos h]
      rw [List.pairwise_cons]
      refine ⟨?_, List.pairwise_cons.mpr ⟨hy, hys⟩⟩
      intro z hz
      rcases List.mem_cons.mp hz with hz | hz
      · rw [hz]
        exact h
      · exact strLe_trans h (hy z hz)
    · rw [if_neg h]
      rw [List.pairwise_cons]
      refine ⟨?_, ih hys⟩
      intro z hz
      have hz' := (insertSorted_perm x ys).mem_iff.mp hz
      rcases List.mem_cons.mp hz' with hz' | hz'
      · rw [hz']
        rcases strLe_total x.1 y.1 with ht | ht
        · exact absurd ht h
        · exact ht
      · exact hy z hz'

theorem sortByKey_pairwise (l : List (String × JValue)) :
    (sortByKey l).Pairwise (fun a b => strLe a.1 b.1 = true) := by
  induction l with
  | nil => simp [sortByKey]
  | cons x t ih =>
    simp only [sortByKey, List.foldr_cons]
    exact insertSorted_pairwise x _ ih

theorem sorted_nodupkeys_perm_eq :
    ∀ (l1 l2 : List (String × JValue)), l1.Perm l2 →
      l1.Pairwise (fun a b => strLe a.1 b.1 = true) →
      l2.Pairwise (fun a b => strLe a.1 b.1 = true) →
      (l1.map Prod.fst).Nodup → l1 = l2 := by
  intro l1
  induction l1 with
  | nil =>
    intro l2 hp _ _ _
    exact hp.nil_eq
  | cons a t1 ih =>
    intro l2 hp hs1 hs2 hnd
    cases l2 with
    | nil => exact absurd hp.symm (by simp)
    | cons b t2 =>
      by_cases hab : a = b
      · subst hab
        have ht := hp.cons_inv
        rw [List.pairwise_cons] at hs1 hs2
        simp only [List.map_cons, List.nodup_cons] at hnd
        rw [ih t2 ht hs1.2 hs2.2 hnd.2]
      · exfalso
        have ha2 : a ∈ b :: t2 := hp.subset (List.mem_cons_self a t1)
        have hat2 : a ∈ t2 := by
          rcases List.mem_cons.mp ha2 with h | h
          · exact absurd h hab
          · exact h
        have hb1 : b ∈ a :: t1 := hp.symm.subset (List.mem_cons_self b t2)
        have hbt1 : b ∈ t1 := by
          rcases List.mem_cons.mp hb1 with h | h
          · exact absurd h.symm hab
          · exact h
        rw [List.pairwise_cons] at hs1 hs2
        have h1 : strLe a.1 b.1 = true := hs1.1 b hbt1
        have h2 : strLe b.1 a.1 = true := hs2.1 a hat2
        have hk : a.1 = b.1 := strLe_antisymm h1 h2
        simp only [List.map_cons, List.nodup_cons] at hnd
        exact hnd.1 (hk ▸ List.mem_map_of_mem Prod.fst hbt1)

theorem sortByKey_eq_of_perm {l1 l2 : List (String × JValue)}
    (hp : l1.Perm l2) (hnd : (l1.map Prod.fst).Nodup) :
    sortByKey l1 = sortByKey l2 :=
  sorted_nodupkeys_perm_eq _ _
    ((sortByKey_perm l1).trans (hp.trans (sortByKey_perm l2).symm))
    (sortByKey_pairwise l1) (sortByKey_pairwise l2)
    (((sortByKey_perm l1).map Prod.fst).nodup_iff.mpr hnd)

/-- C3: the cache key is deterministic — for a fixed digest, two parameter
maps equal as maps (permutations of each other, keys distinct) yield the
same key whatever their insertion order — and injective up to digest
collisions: for an injective digest, equal keys for the same query force
the parameter maps to be equal as maps, so different maps yield different
keys. -/
theorem cache_key_deterministic_and_injective :
    (∀ (digest : String → String) (query : String)
        (l1 l2 : List (String × JValue)),
      l1.Perm l2 → (l1.map Prod.fst).Nodup →
      _get_cache_key digest query l1 = _get_cache_key digest query l2) ∧
    (∀ digest : String → String, Function.Injective digest →
      ∀ (query : String) (l1 l2 : List (String × JValue)),
      (l1.map Prod.fst).Nodup → (l2.map Prod.fst).Nodup →
      _get_cache_key digest query l1 = _get_cache_key digest query l2 →
      l1.Perm l2) := by
  constructor
  · intro digest query l1 l2 hp hnd
    unfold _get_cache_key cache_data json_dumps
    rw [sortByKey_eq_of_perm hp hnd]
  · intro digest hinj query l1 l2 hnd1 hnd2 h
    unfold _get_cache_key at h
    have h1 := hinj (string_append_cancel_left h)
    unfold cache_data at h1
    have h2 := string_append_cancel_left h1
    have h3 := json_dumps_inj_sorted h2
    have h4 : (sortByKey l1).Perm l2 := by
      rw [h3]
      exact sortByKey_perm l2
    exact (sortByKey_perm l1).symm.trans h4

/-- C3 (witness): two insertion orders of the same two-entry parameter map
produce the same key under a concrete (injective, identity) digest, and
the injectivity direction applied at equal keys yields map equality. -/
theorem cache_key_deterministic_and_injective_witness :
    _get_cache_key (fun s => s) "q" [("b", .int 2), ("a", .str "x")] =
      _get_cache_key (fun s => s) "q" [("a", .str "x"), ("b", .int 2)] ∧
    ([("a", JValue.int 1)] : List (String × JValue)).Perm
      [("a", JValue.int 1)] :=
  ⟨cache_key_deterministic_and_injective.1 (fun s => s) "q"
      [("b", .int 2), ("a", .str "x")] [("a", .str "x"), ("b", .int 2)]
      (by decide) (by decide),
   cache_key_deterministic_and_injective.2 (fun s => s) (fun a b h => h) "q"
      [("a", JValue.int 1)] [("a", JValue.int 1)] (by decide) (by decide)
      rfl⟩
